import Mathlib

/-!
Verification development for the trs80gpExt VS Code extension
(TechPrototyper/trs80gpExt).

The definitions below are a shallow embedding of the TypeScript sources:

* `src/debugging/BreakpointManager.ts` — BDS symbol-file parsing, listing-file
  parsing, breakpoint-to-address resolution, entry-point lookup and
  breakpoint-flag formatting;
* `src/assembler/ZmacAssembler.ts` — staleness check, result classification
  and stderr diagnostic parsing;
* `src/emulator/EmulatorManager.ts` — start/stop lifecycle of the single
  emulator child process;
* `src/configuration/ConfigurationManager.ts` — configuration merging with
  fallback defaults.

JavaScript strings are modelled as `List Char` / `String`; the regular
expressions used by the sources are modelled as executable matchers that
follow the greedy-with-backtracking semantics of the original patterns.
File-system and host-API effects (file existence, modification times,
settings lookups, the active breakpoint list, child-process outcomes) are
passed in explicitly as parameters.
-/

namespace Trs80

/-- JS `\s` character class (whitespace), restricted to the code points that
can occur in the assembler/listing text this extension consumes: ASCII
whitespace plus NBSP and the BOM. -/
def isWs (c : Char) : Bool :=
  c.toNat = 32 || c.toNat = 9 || c.toNat = 10 || c.toNat = 11 ||
  c.toNat = 12 || c.toNat = 13 || c.toNat = 160 || c.toNat = 65279

/-- JS `\d` character class. -/
def isDigitCh (c : Char) : Bool :=
  48 ≤ c.toNat && c.toNat ≤ 57

/-- JS `[0-9A-Fa-f]` character class. -/
def isHexCh (c : Char) : Bool :=
  isDigitCh c || (97 ≤ c.toNat && c.toNat ≤ 102) || (65 ≤ c.toNat && c.toNat ≤ 70)

/-- JS `\w` character class. -/
def isWordCh (c : Char) : Bool :=
  isDigitCh c || (97 ≤ c.toNat && c.toNat ≤ 122) || (65 ≤ c.toNat && c.toNat ≤ 90) ||
  c.toNat = 95

/-- Numeric value of a hexadecimal digit character. -/
def hexDigitVal (c : Char) : Nat :=
  if 48 ≤ c.toNat && c.toNat ≤ 57 then c.toNat - 48
  else if 97 ≤ c.toNat && c.toNat ≤ 102 then c.toNat - 87
  else if 65 ≤ c.toNat && c.toNat ≤ 70 then c.toNat - 55
  else 0

/-- Value of a list of hexadecimal digit characters (most significant first),
as computed by JS `parseInt(s, 16)` on a string of hex digits. -/
def hexVal (ds : List Char) : Nat :=
  ds.foldl (fun acc c => acc * 16 + hexDigitVal c) 0

/-- Value of a list of decimal digit characters, as computed by
JS `parseInt(s, 10)` on a string of decimal digits. -/
def decVal (ds : List Char) : Nat :=
  ds.foldl (fun acc c => acc * 10 + (c.toNat - 48)) 0

/-- JS `String.prototype.trim()` on a character list. -/
def trimChars (cs : List Char) : List Char :=
  ((cs.dropWhile isWs).reverse.dropWhile isWs).reverse

/-- JS `String.prototype.trim()`. -/
def trimStr (s : String) : String :=
  String.mk (trimChars s.data)

/-- Split a character list on a separator, keeping empty segments (the
semantics of JS `split` with a single-character separator). `acc` holds the
reversed current segment. -/
def splitOnCharAux (sep : Char) : List Char → List Char → List String
  | [], acc => [String.mk acc.reverse]
  | c :: rest, acc =>
    if c = sep then String.mk acc.reverse :: splitOnCharAux sep rest []
    else splitOnCharAux sep rest (c :: acc)

/-- JS `content.split('\n')`. -/
def splitLines (s : String) : List String :=
  splitOnCharAux '\n' s.data []

/-- JS `String.prototype.toLowerCase()` (ASCII). -/
def toLowerStr (s : String) : String :=
  String.mk (s.data.map Char.toLower)

/-- Match `[0-9A-Fa-f]{4}`: exactly four hexadecimal digits; returns their
value and the rest of the input. -/
def take4Hex (cs : List Char) : Option (Nat × List Char) :=
  match cs with
  | a :: b :: c :: d :: rest =>
    if isHexCh a && isHexCh b && isHexCh c && isHexCh d then
      some (hexVal [a, b, c, d], rest)
    else none
  | _ => none

/-- Match `\s+`: at least one whitespace character, consumed greedily. -/
def skipWs1 (cs : List Char) : Option (List Char) :=
  match cs with
  | c :: rest => if isWs c then some (rest.dropWhile isWs) else none
  | [] => none

/-! ## BDS symbol-file parsing (`BreakpointManager.parseBdsFile`) -/

/-- `SymbolInfo` of `BreakpointManager.ts`: address, label, optional source
file and optional (1-based) line. -/
structure SymbolInfo where
  address : Nat
  label : String
  file : Option String := none
  line : Option Nat := none
deriving Repr, DecidableEq

/-- Match `/^([0-9A-Fa-f]{4})\s+a\s+(\w+)$/` — a zmac BDS label-definition
line, yielding the address and the label. -/
def matchBdsLabel (cs : List Char) : Option (Nat × String) :=
  (take4Hex cs).bind fun (addr, r1) =>
  (skipWs1 r1).bind fun r2 =>
  match r2 with
  | 'a' :: r3 =>
    (skipWs1 r3).bind fun r4 =>
      let w := r4.takeWhile isWordCh
      if w.isEmpty = false && (r4.dropWhile isWordCh).isEmpty then
        some (addr, String.mk w)
      else none
  | _ => none

/-- Match `/^([0-9A-Fa-f]{4})\s+[0-9A-Fa-f]{4}\s+s\s+(.*)$/` — a zmac BDS
source line, yielding the first address and the source text. -/
def matchBdsSource (cs : List Char) : Option (Nat × List Char) :=
  (take4Hex cs).bind fun (addr, r1) =>
  (skipWs1 r1).bind fun r2 =>
  (take4Hex r2).bind fun (_, r3) =>
  (skipWs1 r3).bind fun r4 =>
  match r4 with
  | 's' :: r5 => (skipWs1 r5).map fun r6 => (addr, r6)
  | _ => none

/-- Match `/^\s*(\w+):\s*/` against the start of a source text — the embedded
label test used on BDS source lines. -/
def matchLabelInSource (cs : List Char) : Option String :=
  let r := cs.dropWhile isWs
  let w := r.takeWhile isWordCh
  match r.dropWhile isWordCh with
  | ':' :: _ => if w.isEmpty then none else some (String.mk w)
  | _ => none

/-- Match `/^([0-9A-Fa-f]{4})\s+(\w+)$/` — the older plain
"address label" format. -/
def matchBdsSimple (cs : List Char) : Option (Nat × String) :=
  (take4Hex cs).bind fun (addr, r1) =>
  (skipWs1 r1).bind fun r2 =>
    let w := r2.takeWhile isWordCh
    if w.isEmpty = false && (r2.dropWhile isWordCh).isEmpty then
      some (addr, String.mk w)
    else none

/-- Match `/^([0-9A-Fa-f]{4})\s+(\w+)\s*\(([^:]+):(\d+)\)$/` — the
"address label (file:line)" format. -/
def matchBdsComplex (cs : List Char) : Option (Nat × String × String × Nat) :=
  (take4Hex cs).bind fun (addr, r1) =>
  (skipWs1 r1).bind fun r2 =>
    let w := r2.takeWhile isWordCh
    if w.isEmpty then none else
    let r3 := (r2.dropWhile isWordCh).dropWhile isWs
    match r3 with
    | '(' :: r4 =>
      let f := r4.takeWhile (fun c => c ≠ ':')
      if f.isEmpty then none else
      match r4.dropWhile (fun c => c ≠ ':') with
      | ':' :: r5 =>
        let ds := r5.takeWhile isDigitCh
        if ds.isEmpty then none else
        match r5.dropWhile isDigitCh with
        | ')' :: r6 =>
          if r6.isEmpty then some (addr, String.mk w, String.mk f, decVal ds)
          else none
        | _ => none
      | _ => none
    | _ => none

/-- One iteration of the `parseBdsFile` loop: classify the `idx`-th (0-based)
raw line of the BDS file, trying the four formats in the source's order.
Empty (post-trim) lines and unrecognized lines produce no symbol; a source
line without an embedded label also produces no symbol (the loop
`continue`s). -/
def parseBdsLine (idx : Nat) (raw : String) : Option SymbolInfo :=
  let cs := trimChars raw.data
  if cs.isEmpty then none else
  match matchBdsLabel cs with
  | some (a, w) => some ⟨a, w, none, some (idx + 1)⟩
  | none =>
  match matchBdsSource cs with
  | some (a, src) =>
    match matchLabelInSource src with
    | some w => some ⟨a, w, none, some (idx + 1)⟩
    | none => none
  | none =>
  match matchBdsSimple cs with
  | some (a, w) => some ⟨a, w, none, some (idx + 1)⟩
  | none =>
  match matchBdsComplex cs with
  | some (a, w, f, ln) => some ⟨a, w, some f, some ln⟩
  | none => none

/-- The symbol list produced from the lines of a BDS file. -/
def parseBdsLines (lines : List String) : List SymbolInfo :=
  (lines.enum).filterMap fun p => parseBdsLine p.1 p.2

/-- `BreakpointManager.parseBdsFile`: a missing file yields `[]`, otherwise
the file content is split on newlines and parsed line by line. -/
def parseBdsFile (bdsExists : Bool) (content : String) : List SymbolInfo :=
  if bdsExists then parseBdsLines (splitLines content) else []

/-! ## Entry-point lookup (`BreakpointManager.getEntryPoint`) -/

/-- Match `/^([0-9A-Fa-f]{4})\s+e\s*$/` — the BDS entry-point marker line. -/
def matchEntryLine (cs : List Char) : Option Nat :=
  (take4Hex cs).bind fun (addr, r1) =>
  (skipWs1 r1).bind fun r2 =>
  match r2 with
  | 'e' :: r3 => if (r3.dropWhile isWs).isEmpty then some addr else none
  | _ => none

/-- Scan for the first line whose trimmed text is an entry-point marker. -/
def entryScan : List String → Option Nat
  | [] => none
  | l :: rest =>
    match matchEntryLine (trimChars l.data) with
    | some a => some a
    | none => entryScan rest

/-- `BreakpointManager.getEntryPoint`: entry-marker line first, then a symbol
whose lowercased label is `main`, then the first symbol in file order, else
`none`. A missing BDS file yields `none`. -/
def getEntryPoint (bdsExists : Bool) (content : String) : Option Nat :=
  if bdsExists then
    let lines := splitLines content
    match entryScan lines with
    | some a => some a
    | none =>
      let symbolMap := parseBdsFile bdsExists content
      match symbolMap.find? (fun s => toLowerStr s.label = "main") with
      | some s => some s.address
      | none =>
        match symbolMap with
        | s0 :: _ => some s0.address
        | [] => none
  else none

/-! ## Listing-file parsing (`BreakpointManager.findAddressForSourceLine`) -/

/-- Greedy-with-backtracking `\s*` prefix: try consuming the longest
whitespace run first, then shorter runs, handing the remainder to `cont`
each time — the JS backtracking order for `\s*` followed by `cont`. -/
def wsStarBacktrack (cont : List Char → Option Nat) : List Char → Option Nat
  | [] => cont []
  | c :: rest =>
    if isWs c then
      match wsStarBacktrack cont rest with
      | some a => some a
      | none => cont (c :: rest)
    else cont (c :: rest)

/-- `[^\t]*\t` then `cont`: the maximal run of non-tab characters must be
followed by a tab (no shorter run can be, since the run contains no tab). -/
def nonTabThenTab (cont : List Char → Option Nat) (cs : List Char) : Option Nat :=
  match cs.dropWhile (fun c => c ≠ '\t') with
  | '\t' :: r => cont r
  | _ => none

/-- `([0-9A-Fa-f]{4})\s+` — the address group of the listing regex: four hex
digits followed by at least one whitespace character. -/
def listingAddr (cs : List Char) : Option Nat :=
  (take4Hex cs).bind fun (a, r) =>
  match r with
  | c :: _ => if isWs c then some a else none
  | [] => none

/-- Match `/^\s*(\d+):\s*[^	]*	([0-9A-Fa-f]{4})\s+/` against a raw listing
line, yielding the source line number and the address. -/
def matchListingLine (cs : List Char) : Option (Nat × Nat) :=
  let r0 := cs.dropWhile isWs
  let ds := r0.takeWhile isDigitCh
  if ds.isEmpty then none else
  match r0.dropWhile isDigitCh with
  | ':' :: r1 =>
    match wsStarBacktrack (nonTabThenTab listingAddr) r1 with
    | some a => some (decVal ds, a)
    | none => none
  | _ => none

/-- The listing-file scan of `findAddressForSourceLine`: first line whose
parsed line number equals the target line wins. -/
def findListingAddress (targetLine : Nat) : List String → Option Nat
  | [] => none
  | l :: rest =>
    match matchListingLine l.data with
    | some (n, a) => if n = targetLine then some a else findListingAddress targetLine rest
    | none => findListingAddress targetLine rest

/-! ## Nearest-label fallback (`BreakpointManager.findAddressUsingNearestLabel`) -/

/-- Match `/^(\w+):/` against a (trimmed) source line — strategy 1's
label-on-line test. -/
def matchLabelColon (cs : List Char) : Option String :=
  let w := cs.takeWhile isWordCh
  match cs.dropWhile isWordCh with
  | ':' :: _ => if w.isEmpty then none else some (String.mk w)
  | _ => none

/-- Strategy 1 of the fallback: if the target line's trimmed text starts with
`label:` and that label names a known symbol, that symbol's address. -/
def labelOnLineAddress (symbolMap : List SymbolInfo) (targetText : List Char) : Option Nat :=
  match matchLabelColon targetText with
  | some w =>
    match symbolMap.find? (fun s => s.label = w) with
    | some s => some s.address
    | none => none
  | none => none

/-- Strategy 2's scan loop: fold over all source lines (0-based index `i`),
keeping the candidate with the strictly smallest distance
`targetLine - (i+1)` among label lines at or before the target line.  The
accumulator is `none` for the initial `Infinity` distance. -/
def nearestLabelLoop (symbolMap : List SymbolInfo) (targetLine : Nat) :
    Nat → List String → Option (SymbolInfo × Nat) → Option (SymbolInfo × Nat)
  | _, [], acc => acc
  | i, line :: rest, acc =>
    let acc' :=
      match matchLabelColon (trimChars line.data) with
      | some w =>
        match symbolMap.find? (fun s => s.label = w) with
        | some s =>
          let lineNumber := i + 1
          if lineNumber ≤ targetLine then
            let distance := targetLine - lineNumber
            match acc with
            | none => some (s, distance)
            | some (s0, best) => if distance < best then some (s, distance) else some (s0, best)
          else acc
        | none => acc
      | none => acc
    nearestLabelLoop symbolMap targetLine (i + 1) rest acc'

/-- `BreakpointManager.findAddressUsingNearestLabel`: `none` when the target
line is beyond the file (or is 0, where the source's line indexing throws and
the catch returns null); otherwise strategy 1 (label on the target line),
then strategy 2 (nearest preceding matching label). -/
def findAddressUsingNearestLabel (sourceLines : List String) (targetLine : Nat)
    (symbolMap : List SymbolInfo) : Option Nat :=
  if sourceLines.length < targetLine then none
  else if targetLine = 0 then none
  else
    let targetText := trimChars ((sourceLines.getD (targetLine - 1) "").data)
    match labelOnLineAddress symbolMap targetText with
    | some a => some a
    | none =>
      match nearestLabelLoop symbolMap targetLine 0 sourceLines none with
      | some (s, _) => some s.address
      | none => none

/-- `BreakpointManager.findAddressForSourceLine`: when the listing file
exists (`listing = some lines`) the listing scan is consulted first and its
answer is authoritative; on a miss — or with no listing file — resolution
falls back to `findAddressUsingNearestLabel`. -/
def findAddressForSourceLine (listing : Option (List String))
    (sourceLines : List String) (targetLine : Nat)
    (symbolMap : List SymbolInfo) : Option Nat :=
  match listing with
  | some listingLines =>
    match findListingAddress targetLine listingLines with
    | some a => some a
    | none => findAddressUsingNearestLabel sourceLines targetLine symbolMap
  | none => findAddressUsingNearestLabel sourceLines targetLine symbolMap

/-! ## Breakpoint collection (`BreakpointManager.getBreakpointAddresses`) -/

/-- A host (VS Code) breakpoint: a source breakpoint carries a file path and
a 0-based line; other breakpoint kinds are skipped by the loop. -/
inductive VBreakpoint where
  | source (file : String) (zeroBasedLine : Nat)
  | other
deriving Repr, DecidableEq

/-- `BreakpointInfo` of `BreakpointManager.ts`. -/
structure BreakpointInfo where
  address : Nat
  file : String
  line : Nat
  label : Option String := none
deriving Repr, DecidableEq

/-- The resolved-breakpoint list before the 4-entry cap: each source
breakpoint of the host, in host order, that maps to an address.
`listingOf` / `sourceOf` give each file's listing lines (if the listing file
exists) and source lines. -/
def resolvedBreakpoints (breakpoints : List VBreakpoint)
    (listingOf : String → Option (List String)) (sourceOf : String → List String)
    (symbolMap : List SymbolInfo) : List BreakpointInfo :=
  breakpoints.filterMap fun bp =>
    match bp with
    | .source f l0 =>
      let line := l0 + 1
      match findAddressForSourceLine (listingOf f) (sourceOf f) line symbolMap with
      | some a => some ⟨a, f, line, some ("line_" ++ toString line)⟩
      | none => none
    | .other => none

/-- `BreakpointManager.getBreakpointAddresses`: the resolved list, truncated
by `.slice(0, 4)` — the trs80gp 4-breakpoint limitation. -/
def getBreakpointAddresses (breakpoints : List VBreakpoint)
    (listingOf : String → Option (List String)) (sourceOf : String → List String)
    (symbolMap : List SymbolInfo) : List BreakpointInfo :=
  (resolvedBreakpoints breakpoints listingOf sourceOf symbolMap).take 4

/-! ## Address rendering and parsing -/

/-- The hexadecimal digit character for a value below 16, uppercase — as in
JS `n.toString(16).toUpperCase()`. -/
def toHexDigitUpper (n : Nat) : Char :=
  if n < 10 then Char.ofNat (48 + n) else Char.ofNat (55 + n)

/-- Fuel-driven digit accumulation for `toString(16)`: prepend the digits of
`n` (most significant first) to `acc`.  Any `fuel ≥ n` is enough, since the
value shrinks by a factor of 16 each step. -/
def toHexUpperGo : Nat → Nat → List Char → List Char
  | 0, n, acc => toHexDigitUpper (n % 16) :: acc
  | fuel + 1, n, acc =>
    if n < 16 then toHexDigitUpper n :: acc
    else toHexUpperGo fuel (n / 16) (toHexDigitUpper (n % 16) :: acc)

/-- The uppercase hexadecimal digit list of `n`, without leading zeros
(single `0` for zero) — JS `n.toString(16).toUpperCase()` for a
non-negative integer. -/
def toHexUpperList (n : Nat) : List Char :=
  toHexUpperGo n n []

/-- Render an address the way breakpoint flags and entry points are rendered:
`address.toString(16).toUpperCase()`. -/
def renderAddress (n : Nat) : String :=
  String.mk (toHexUpperList n)

/-- Strip an optional leading sign, reporting whether it was `-`. -/
def stripSign (cs : List Char) : Bool × List Char :=
  match cs with
  | c :: r => if c = '-' then (true, r) else if c = '+' then (false, r) else (false, cs)
  | [] => (false, cs)

/-- Strip an optional `0x` / `0X` prefix (radix 16). -/
def strip0x (cs : List Char) : List Char :=
  match cs with
  | a :: b :: r => if a = '0' ∧ (b = 'x' ∨ b = 'X') then r else cs
  | _ => cs

/-- JS `parseInt(s, 16)`: skip leading whitespace, an optional sign, an
optional `0x`/`0X` prefix, then the maximal run of hexadecimal digits;
`none` models `NaN` (no digits). -/
def parseIntHex (s : String) : Option Int :=
  let cs := s.data.dropWhile isWs
  let sg := stripSign cs
  let body := strip0x sg.2
  let ds := body.takeWhile isHexCh
  if ds.isEmpty then none
  else some (if sg.1 then -(hexVal ds : Int) else (hexVal ds : Int))

/-- The program's hexadecimal address parsing (`parseInt(addressStr, 16)`),
restricted to the non-negative results addresses take. -/
def parseAddress (s : String) : Option Nat :=
  (parseIntHex s).bind fun i => if 0 ≤ i then some i.toNat else none

/-- `BreakpointManager.formatBreakpointsForEmulator`: push `-b HEXADDR` for
each resolved breakpoint, uppercase hex. -/
def formatBreakpointsForEmulator (breakpoints : List BreakpointInfo) : List String :=
  breakpoints.foldr (fun bp acc => "-b" :: renderAddress bp.address :: acc) []

/-- The debug-mode breakpoint-argument computation of
`TRS80Commands.prepareEmulatorArgs`: with breakpoints, format them; with
none, fall back to the BDS entry point (one `-b` flag) or to no flag at
all. -/
def prepareBreakpointArgs (breakpoints : List BreakpointInfo)
    (bdsExists : Bool) (bdsContent : String) : List String :=
  if breakpoints.isEmpty then
    match getEntryPoint bdsExists bdsContent with
    | some e => ["-b", renderAddress e]
    | none => []
  else formatBreakpointsForEmulator breakpoints

/-! ## Assembler invocation (`ZmacAssembler`) -/

/-- Diagnostic severity. -/
inductive Severity where
  | error
  | warning
deriving Repr, DecidableEq

/-- `AssemblyError` of `ZmacAssembler.ts`. -/
structure AssemblyError where
  file : String
  line : Nat
  column : Option Nat := none
  message : String
  severity : Severity
deriving Repr, DecidableEq

/-- `AssemblyResult.outputFiles` of `ZmacAssembler.ts`. -/
structure OutputFiles where
  bds : Option String := none
  cmd : Option String := none
  lst : Option String := none
deriving Repr, DecidableEq

/-- `AssemblyResult` of `ZmacAssembler.ts`. -/
structure AssemblyResult where
  success : Bool
  stdout : String
  stderr : String
  outputFiles : OutputFiles
  errors : List AssemblyError
deriving Repr, DecidableEq

/-- JS `.` character class (anything but a line terminator). -/
def isDotCh (c : Char) : Bool :=
  !(c.toNat = 10 || c.toNat = 13 || c.toNat = 8232 || c.toNat = 8233)

/-- Case-insensitive literal match (the `/i` flag), returning the rest of
the input. -/
def matchCI : List Char → List Char → Option (List Char)
  | [], cs => some cs
  | _ :: _, [] => none
  | p :: ps, c :: cs => if c.toLower = p.toLower then matchCI ps cs else none

/-- `\s*(.+)` at the end of a pattern, with the greedy backtracking order of
JS: longest whitespace run first, giving back characters until `.+` can
match; the capture is the maximal dot-run at the chosen position. -/
def wsStarDotPlus : List Char → Option (List Char)
  | [] => none
  | c :: rest =>
    if isWs c then
      match wsStarDotPlus rest with
      | some g => some g
      | none => if isDotCh c then some ((c :: rest).takeWhile isDotCh) else none
    else if isDotCh c then some ((c :: rest).takeWhile isDotCh) else none

/-- The apostrophe character quoting file names in zmac error lines. -/
def quoteCh : Char := Char.ofNat 39

/-- Match `/File\s+'([^']+)',\s+line\s+(\d+):\s*(.+)/i` at the current
position, yielding (file, line, message group). -/
def matchFileErrAt (cs : List Char) : Option (String × Nat × String) :=
  (matchCI "File".data cs).bind fun r1 =>
  (skipWs1 r1).bind fun r2 =>
  match r2 with
  | q :: r3 =>
    if q = quoteCh then
      let f := r3.takeWhile (fun c => c ≠ quoteCh)
      if f.isEmpty then none else
      match r3.dropWhile (fun c => c ≠ quoteCh) with
      | _ :: ',' :: r4 =>
        (skipWs1 r4).bind fun r5 =>
        (matchCI "line".data r5).bind fun r6 =>
        (skipWs1 r6).bind fun r7 =>
          let ds := r7.takeWhile isDigitCh
          if ds.isEmpty then none else
          match r7.dropWhile isDigitCh with
          | ':' :: r8 => (wsStarDotPlus r8).map fun g => (String.mk f, decVal ds, String.mk g)
          | _ => none
      | _ => none
    else none
  | [] => none

/-- Unanchored search for the structured zmac error pattern. -/
def searchFileErr : List Char → Option (String × Nat × String)
  | [] => none
  | c :: rest =>
    match matchFileErrAt (c :: rest) with
    | some r => some r
    | none => searchFileErr rest

/-- Match `/line\s+(\d+):\s*(.+)/i` at the current position. -/
def matchSimpleErrAt (cs : List Char) : Option (Nat × String) :=
  (matchCI "line".data cs).bind fun r1 =>
  (skipWs1 r1).bind fun r2 =>
    let ds := r2.takeWhile isDigitCh
    if ds.isEmpty then none else
    match r2.dropWhile isDigitCh with
    | ':' :: r3 => (wsStarDotPlus r3).map fun g => (decVal ds, String.mk g)
    | _ => none

/-- Unanchored search for the looser zmac error pattern. -/
def searchSimpleErr : List Char → Option (Nat × String)
  | [] => none
  | c :: rest =>
    match matchSimpleErrAt (c :: rest) with
    | some r => some r
    | none => searchSimpleErr rest

/-- Substring test (JS `String.prototype.includes`). -/
def containsSub (needle : List Char) : List Char → Bool
  | [] => needle.isEmpty
  | c :: rest => needle.isPrefixOf (c :: rest) || containsSub needle rest

/-- JS `line.toLowerCase().includes('warning')`. -/
def lineHasWarning (line : String) : Bool :=
  containsSub "warning".data (line.data.map Char.toLower)

/-- `ZmacAssembler.parseZmacErrors`: per stderr line, the structured pattern
first, else the looser pattern attributed to the requested source file;
severity `warning` iff the line contains "warning" case-insensitively. -/
def parseZmacErrors (stderrText : String) (sourceFile : String) : List AssemblyError :=
  (splitLines stderrText).filterMap fun line =>
    let sev := if lineHasWarning line then Severity.warning else Severity.error
    match searchFileErr line.data with
    | some (f, n, msg) => some ⟨f, n, none, trimStr msg, sev⟩
    | none =>
      match searchSimpleErr line.data with
      | some (n, msg) => some ⟨sourceFile, n, none, trimStr msg, sev⟩
      | none => none

/-- `ZmacAssembler.getOutputFiles`: existence-based probe for the three
conventional sibling artifacts. -/
def getOutputFiles (bdsExists cmdExists lstExists : Bool)
    (outputDir baseName : String) : OutputFiles :=
  { bds := if bdsExists then some (outputDir ++ "/" ++ baseName ++ ".bds") else none,
    cmd := if cmdExists then some (outputDir ++ "/" ++ baseName ++ ".cmd") else none,
    lst := if lstExists then some (outputDir ++ "/" ++ baseName ++ ".lst") else none }

/-- The observable outcome of the spawned zmac child process: either the
process reached `close` with an exit code and buffered streams, or spawning
itself failed with an OS error message. -/
inductive ProcOutcome where
  | closed (code : Int) (stdoutText stderrText : String)
  | spawnFailed (message : String)
deriving Repr, DecidableEq

/-- `ZmacAssembler.assemble`, classified by process outcome. On `close`,
success is exactly exit code zero and the diagnostics come from parsing
stderr; on a spawn error, the promise still resolves, with `success =
false` and one synthetic error diagnostic for the requested source file. -/
def assembleModel (sourceFile : String) (probedFiles : OutputFiles)
    (outcome : ProcOutcome) : AssemblyResult :=
  match outcome with
  | .closed code stdoutText stderrText =>
    { success := code = 0,
      stdout := stdoutText,
      stderr := stderrText,
      outputFiles := probedFiles,
      errors := parseZmacErrors stderrText sourceFile }
  | .spawnFailed msg =>
    { success := false,
      stdout := "",
      stderr := msg,
      outputFiles := {},
      errors := [⟨sourceFile, 1, none, "Failed to start zmac: " ++ msg, Severity.error⟩] }

/-- `ZmacAssembler.needsAssembly`: assembly is needed when the `.bds`
artifact is missing, when either modification time cannot be read, or when
the source is strictly newer than the artifact. -/
def needsAssembly (bdsExists : Bool) (srcMtime bdsMtime : Option Int) : Bool :=
  if !bdsExists then true
  else
    match srcMtime, bdsMtime with
    | some s, some b => s > b
    | _, _ => true

/-- What `TRS80Commands.performAssembly` does with the staleness check:
either skip the child process entirely, synthesizing a successful result
with no diagnostics and the probed output files, or invoke the assembler. -/
inductive PerformOutcome where
  | skipped (result : AssemblyResult)
  | invoked
deriving Repr, DecidableEq

/-- The staleness-check branch of `TRS80Commands.performAssembly`. -/
def performAssemblyModel (bdsExists : Bool) (srcMtime bdsMtime : Option Int)
    (probedFiles : OutputFiles) : PerformOutcome :=
  if needsAssembly bdsExists srcMtime bdsMtime then .invoked
  else .skipped
    { success := true, stdout := "", stderr := "", outputFiles := probedFiles, errors := [] }

/-! ## Emulator process supervision (`EmulatorManager`) -/

/-- The stored `EmulatorInstance` (process handle and start time abstracted
to the pid). -/
structure EmulatorInstance where
  pid : Nat
  sourceFile : String
  isDebugMode : Bool
deriving Repr, DecidableEq

/-- Signals `stopEmulator` can send. -/
inductive Signal where
  | sigterm
  | sigkill
deriving Repr, DecidableEq

/-- The graceful-shutdown timeout of `stopEmulator`, in milliseconds. -/
def stopTimeoutMs : Nat := 2000

/-- Observable result of one `stopEmulator()` call: the signals successfully
sent (in order), the stored instance afterwards, and whether the call threw. -/
structure StopResult where
  signals : List Signal
  finalInstance : Option EmulatorInstance
  threw : Bool
deriving Repr, DecidableEq

/-- `EmulatorManager.stopEmulator`, classified by environment behavior:
whether sending SIGTERM throws, when (if ever) the process reports exit, and
whether sending SIGKILL throws.  A `none` instance is an immediate no-op;
every other path sends SIGTERM (escalating to SIGKILL after the 2-second
timeout), swallows signal errors, and clears the stored instance. -/
def stopEmulatorModel (current : Option EmulatorInstance)
    (termSendFails : Bool) (exitAfterMs : Option Nat) (killSendFails : Bool) :
    StopResult :=
  match current with
  | none => ⟨[], none, false⟩
  | some _ =>
    if termSendFails then ⟨[], none, false⟩
    else
      match exitAfterMs with
      | some t =>
        if t < stopTimeoutMs then ⟨[.sigterm], none, false⟩
        else ⟨.sigterm :: (if killSendFails then [] else [.sigkill]), none, false⟩
      | none => ⟨.sigterm :: (if killSendFails then [] else [.sigkill]), none, false⟩

/-- Supervisor state visible to the OS and the manager: the manager's stored
`currentInstance` pid and the list of live child processes. -/
structure SupState where
  current : Option Nat
  children : List Nat
deriving Repr, DecidableEq

/-- The atomic steps of one `startEmulator` call, in program order:
`callStop` (the awaited `stopEmulator()`), `spawnChild` (the `spawn` call,
which creates the OS child), and `spawnEvent` (the `'spawn'` handler that
records the instance).  The call suspends between steps, so steps of another
`startEmulator` call may interleave there. -/
inductive StartAction where
  | callStop
  | spawnChild (pid : Nat)
  | spawnEvent (pid : Nat)
deriving Repr, DecidableEq

/-- Effect of one `startEmulator` step on the supervisor state. `callStop`
is a no-op when no instance is stored and otherwise terminates the stored
child and clears the instance (the behavior of `stopEmulator`, with signal
delivery folded into one atomic kill). -/
def stepStart (st : SupState) : StartAction → SupState
  | .callStop =>
    match st.current with
    | none => st
    | some p => { current := none, children := st.children.erase p }
  | .spawnChild pid => { st with children := pid :: st.children }
  | .spawnEvent pid => { st with current := some pid }

/-- The step sequence of `startEmulator` for a child that spawns
successfully with the given pid. -/
def startProgram (pid : Nat) : List StartAction :=
  [.callStop, .spawnChild pid, .spawnEvent pid]

/-- Run a sequence of steps. -/
def runActions (st : SupState) (as : List StartAction) : SupState :=
  as.foldl stepStart st

/-- All states along a run, including the initial one. -/
def statesAlong (st : SupState) : List StartAction → List SupState
  | [] => [st]
  | a :: as => st :: statesAlong (stepStart st a) as

/-- A supervisor state is consistent when the stored instance and the live
children agree: exactly the recorded child is alive. -/
def SupConsistent (st : SupState) : Prop :=
  st.children = (match st.current with | some p => [p] | none => [])

/-! ## Configuration merging (`ConfigurationManager`) -/

/-- The `ProjectConfig` interface (`.vscode/trs80gp.json`), every field
optional. -/
structure ProjectConfig where
  outputDir : Option String := none
  zmacArgs : Option (List String) := none
  emulatorArgs : Option (List String) := none
  defaultSourceFile : Option String := none
  target : Option String := none
deriving Repr, DecidableEq

/-- The `TRS80Config` interface.  `autoAssemble` is kept optional to model
the JS-level possibility of an undefined field, which
`ensureMinimalConfiguration` explicitly re-checks. -/
structure TRS80Config where
  emulatorPath : String
  zmacPath : String
  outputDir : String
  emulatorArgs : List String
  target : String
  autoAssemble : Option Bool
  projectConfig : Option ProjectConfig := none
deriving Repr, DecidableEq

/-- The workspace settings as read through `config.get(...)`: `none` models
an undefined setting. -/
structure VsSettings where
  emulatorPath : Option String := none
  zmacPath : Option String := none
  defaultOutputDir : Option String := none
  defaultEmulatorArgs : Option (List String) := none
  defaultTarget : Option String := none
  autoAssemble : Option Bool := none
deriving Repr, DecidableEq

/-- `DEFAULT_CONFIG.emulatorPath`. -/
def defaultEmulatorPath : String := "/Applications/trs80gp.app/Contents/MacOS/trs80gp"

/-- JS `value || default` for an optional string setting (the empty string
is falsy). -/
def orFalsyStr (v : Option String) (d : String) : String :=
  match v with
  | some s => if s = "" then d else s
  | none => d

/-- `ConfigurationManager.ensureMinimalConfiguration`: replace blank paths
and directories by the defaults, non-array/empty emulator arguments by
`['-m3']`, out-of-range targets by `model3`, and an undefined `autoAssemble`
by `true`.  Each of the source's sequential field fix-ups reads only the
field it assigns, so they are rendered as independent per-field repairs. -/
def ensureMinimalConfiguration (config : TRS80Config) : TRS80Config :=
  { emulatorPath :=
      if config.emulatorPath = "" || trimStr config.emulatorPath = "" then
        defaultEmulatorPath
      else config.emulatorPath,
    zmacPath :=
      if config.zmacPath = "" || trimStr config.zmacPath = "" then "zmac"
      else config.zmacPath,
    outputDir :=
      if config.outputDir = "" || trimStr config.outputDir = "" then ".zout"
      else config.outputDir,
    emulatorArgs :=
      if config.emulatorArgs.isEmpty then ["-m3"] else config.emulatorArgs,
    target :=
      if config.target = "" ||
          !(config.target = "model1" || config.target = "model3" ||
            config.target = "model4") then "model3"
      else config.target,
    autoAssemble :=
      match config.autoAssemble with
      | none => some true
      | some b => some b,
    projectConfig := config.projectConfig }

/-- The merge step of `ConfigurationManager.getConfiguration`: settings with
falsy-fallback defaults, then project-file overrides for the fields that are
present (`project = none` models a missing or unparseable `trs80gp.json`),
then the emulator-argument validation. -/
def mergedConfiguration (settings : VsSettings) (project : Option ProjectConfig) :
    TRS80Config :=
  let g : TRS80Config :=
    { emulatorPath := orFalsyStr settings.emulatorPath defaultEmulatorPath,
      zmacPath := orFalsyStr settings.zmacPath "zmac",
      outputDir := orFalsyStr settings.defaultOutputDir ".zout",
      emulatorArgs := (match settings.defaultEmulatorArgs with
        | some a => a
        | none => ["-m3"]),
      target := orFalsyStr settings.defaultTarget "model3",
      autoAssemble := some (match settings.autoAssemble with
        | some b => b
        | none => true),
      projectConfig := none }
  let g :=
    match project with
    | none => g
    | some pc =>
      let g := { g with projectConfig := some pc }
      let g := match pc.outputDir with
        | some o => { g with outputDir := o }
        | none => g
      let g := match pc.emulatorArgs with
        | some a => { g with emulatorArgs := a }
        | none => g
      let g := match pc.target with
        | some t => { g with target := t }
        | none => g
      g
  if g.emulatorArgs.isEmpty then { g with emulatorArgs := ["-m3"] } else g

/-- `ConfigurationManager.getConfiguration`: the merge step followed by
`ensureMinimalConfiguration`. -/
def getConfiguration (settings : VsSettings) (project : Option ProjectConfig) :
    TRS80Config :=
  ensureMinimalConfiguration (mergedConfiguration settings project)

/-! ## Specification-side definitions and concrete scenarios -/

/-- Last element of a list, if any. -/
def lastOpt {α : Type} : List α → Option α
  | [] => none
  | [c] => some c
  | _ :: c :: rest => lastOpt (c :: rest)

/-- The candidate list of the nearest-preceding-label scan: for each source
line with 0-based index `i ≥ i0`, in order, the first symbol whose label the
trimmed line starts with (as `label:`), provided the 1-based line `i + 1` is
at or before the target line; paired with the line distance to the target. -/
def labelCandidates (symbolMap : List SymbolInfo) (targetLine : Nat) :
    Nat → List String → List (SymbolInfo × Nat)
  | _, [] => []
  | i, line :: rest =>
    match matchLabelColon (trimChars line.data) with
    | some w =>
      match symbolMap.find? (fun s => s.label = w) with
      | some s =>
        if i + 1 ≤ targetLine then
          (s, targetLine - (i + 1)) :: labelCandidates symbolMap targetLine (i + 1) rest
        else labelCandidates symbolMap targetLine (i + 1) rest
      | none => labelCandidates symbolMap targetLine (i + 1) rest
    | none => labelCandidates symbolMap targetLine (i + 1) rest

/-- Specification-side reading of §4.2 Fallback B: among the label-defining
lines at or before the target line, the one nearest to the target (the last
candidate when scanning top to bottom) supplies the address. -/
def nearestPrecedingLabelSpec (symbolMap : List SymbolInfo) (targetLine : Nat)
    (sourceLines : List String) : Option Nat :=
  (lastOpt (labelCandidates symbolMap targetLine 0 sourceLines)).map fun c => c.1.address

/-- The `demo.a80` source of the spec's example scenario: a `loop:` label on
line 10. -/
def demoSource : List String :=
  ["; demo program", "", "        org 6000h", "", "        ld a, 1", "",
   "        ld hl, 6010h", "", "        nop", "loop:", "        jp loop"]

/-- The symbol table of the example scenario: `loop = 0x6010`. -/
def demoSymbols : List SymbolInfo :=
  [⟨24592, "loop", none, some 10⟩]

/-- A BDS text with an explicit entry-point marker at `0x5000`. -/
def demoBds : String :=
  "0000 junkdata\n5000 e\n6010 a loop"

/-- The idle supervisor state: no stored instance, no live children. -/
def idleSup : SupState := ⟨none, []⟩

/-! ## Theorems -/

theorem findListingAddress_eq_of_mem (L A : Nat) :
    ∀ ls : List String,
    (∃ l ∈ ls, matchListingLine l.data = some (L, A)) →
    (ls.all fun l =>
      match matchListingLine l.data with
      | some p => p.1 != L || p.2 == A
      | none => true) = true →
    findListingAddress L ls = some A := by
  intro ls
  induction ls with
  | nil =>
    intro hmem _
    rcases hmem with ⟨l, hl, _⟩
    simp at hl
  | cons l rest ih =>
    intro hmem hall
    rw [List.all_cons, Bool.and_eq_true] at hall
    obtain ⟨hhead, htail⟩ := hall
    cases hml : matchListingLine l.data with
    | some p =>
      obtain ⟨n, a⟩ := p
      rw [hml] at hhead
      by_cases hn : n = L
      · subst hn
        simp only [bne_self_eq_false, Bool.false_or, beq_iff_eq] at hhead
        subst hhead
        simp [findListingAddress, hml]
      · have hrest : ∃ l' ∈ rest, matchListingLine l'.data = some (L, A) := by
          rcases hmem with ⟨l', hl', he⟩
          rcases List.mem_cons.mp hl' with h | h
          · subst h
            rw [hml] at he
            exact absurd (by injection he with h'; exact congrArg Prod.fst h') hn
          · exact ⟨l', h, he⟩
        simp [findListingAddress, hml, hn]
        exact ih hrest htail
    | none =>
      have hrest : ∃ l' ∈ rest, matchListingLine l'.data = some (L, A) := by
        rcases hmem with ⟨l', hl', he⟩
        rcases List.mem_cons.mp hl' with h | h
        · subst h
          rw [hml] at he
          cases he
        · exact ⟨l', h, he⟩
      simp [findListingAddress, hml]
      exact ih hrest htail

/-- C1: if the listing text contains an entry whose source line equals the
breakpoint's line `L` with address `A` (all listing entries for `L` carrying
that address), breakpoint resolution returns exactly `A` — for every symbol
table and every source text, so symbol-based fallback data present alongside
never changes the result. -/
theorem listing_entry_wins
    (listingLines sourceLines : List String) (symbolMap : List SymbolInfo) (L A : Nat)
    (hmem : ∃ l ∈ listingLines, matchListingLine l.data = some (L, A))
    (hagree : (listingLines.all fun l =>
      match matchListingLine l.data with
      | some p => p.1 != L || p.2 == A
      | none => true) = true) :
    findAddressForSourceLine (some listingLines) sourceLines L symbolMap = some A := by
  show (match findListingAddress L listingLines with
    | some a => some a
    | none => findAddressUsingNearestLabel sourceLines L symbolMap) = some A
  rw [findListingAddress_eq_of_mem L A listingLines hmem hagree]

/-- Witness for C1: a concrete listing line for source line 7 at address
`0x6003` resolves to `0x6003` even with a symbol table and source text that
would make the fallback produce a different address (`0x7000`). -/
theorem listing_entry_wins_witness :
    findAddressForSourceLine
      (some ["   7:   17+10\t6003  210C60  \tld hl, hello_msg"])
      ["loop:", "  ld a, 1", "  inc a", "  dec a", "  nop", "  nop", "  halt"]
      7 [⟨28672, "loop", none, none⟩] = some 24579 :=
  listing_entry_wins _ _ _ 7 24579 (by decide) (by decide)

/-- C2: the resolver's output never exceeds 4 entries, and when more than 4
host breakpoints resolve to addresses the output is exactly the first 4
resolved entries, in host enumeration order. -/
theorem breakpoint_output_capped_at_four :
    (∀ (bps : List VBreakpoint) (listingOf : String → Option (List String))
      (sourceOf : String → List String) (symbolMap : List SymbolInfo),
      (getBreakpointAddresses bps listingOf sourceOf symbolMap).length ≤ 4)
    ∧ (∀ (bps : List VBreakpoint) (listingOf : String → Option (List String))
      (sourceOf : String → List String) (symbolMap : List SymbolInfo),
      4 < (resolvedBreakpoints bps listingOf sourceOf symbolMap).length →
      getBreakpointAddresses bps listingOf sourceOf symbolMap
        = (resolvedBreakpoints bps listingOf sourceOf symbolMap).take 4
      ∧ (getBreakpointAddresses bps listingOf sourceOf symbolMap).length = 4) := by
  constructor
  · intro bps listingOf sourceOf symbolMap
    simp [getBreakpointAddresses]
  · intro bps listingOf sourceOf symbolMap h
    refine ⟨rfl, ?_⟩
    simp [getBreakpointAddresses]
    omega

/-- Witness for C2: five resolvable breakpoints produce exactly the first
four resolved entries. -/
theorem breakpoint_output_capped_at_four_witness :
    getBreakpointAddresses
      [.source "m.a80" 0, .source "m.a80" 0, .source "m.a80" 0,
       .source "m.a80" 0, .source "m.a80" 0]
      (fun _ => some ["1:\t6000 "]) (fun _ => []) []
      = (resolvedBreakpoints
          [.source "m.a80" 0, .source "m.a80" 0, .source "m.a80" 0,
           .source "m.a80" 0, .source "m.a80" 0]
          (fun _ => some ["1:\t6000 "]) (fun _ => []) []).take 4
      ∧ (getBreakpointAddresses
          [.source "m.a80" 0, .source "m.a80" 0, .source "m.a80" 0,
           .source "m.a80" 0, .source "m.a80" 0]
          (fun _ => some ["1:\t6000 "]) (fun _ => []) []).length = 4 :=
  breakpoint_output_capped_at_four.2 _ _ _ _ (by decide)

theorem lastOpt_isSome {α : Type} : ∀ (l : List α) (c : α), (lastOpt (c :: l)).isSome := by
  intro l
  induction l with
  | nil => intro c; rfl
  | cons d t ih => intro c; exact ih d

theorem lastOpt_cons {α : Type} (c : α) (l : List α) :
    lastOpt (c :: l) = match lastOpt l with
      | some x => some x
      | none => some c := by
  cases l with
  | nil => rfl
  | cons d t =>
    cases h : lastOpt (d :: t) with
    | none => exact absurd (congrArg Option.isSome h) (by simp [lastOpt_isSome])
    | some x =>
      show lastOpt (d :: t) = _
      rw [h]

theorem nearestLabelLoop_eq_lastCandidate (symbolMap : List SymbolInfo) (targetLine : Nat) :
    ∀ (lines : List String) (i : Nat) (acc : Option (SymbolInfo × Nat)),
    (∀ s d, acc = some (s, d) → targetLine - i ≤ d) →
    nearestLabelLoop symbolMap targetLine i lines acc =
      match lastOpt (labelCandidates symbolMap targetLine i lines) with
      | some c => some c
      | none => acc := by
  intro lines
  induction lines with
  | nil => intro i acc _; rfl
  | cons line rest ih =>
    intro i acc hinv
    cases hm : matchLabelColon (trimChars line.data) with
    | none =>
      have hl : nearestLabelLoop symbolMap targetLine i (line :: rest) acc
          = nearestLabelLoop symbolMap targetLine (i + 1) rest acc := by
        simp [nearestLabelLoop, hm]
      have hc : labelCandidates symbolMap targetLine i (line :: rest)
          = labelCandidates symbolMap targetLine (i + 1) rest := by
        simp [labelCandidates, hm]
      rw [hl, hc]
      exact ih (i + 1) acc (by intro s d hd; have := hinv s d hd; omega)
    | some w =>
      cases hf : symbolMap.find? (fun s => s.label = w) with
      | none =>
        have hl : nearestLabelLoop symbolMap targetLine i (line :: rest) acc
            = nearestLabelLoop symbolMap targetLine (i + 1) rest acc := by
          simp [nearestLabelLoop, hm, hf]
        have hc : labelCandidates symbolMap targetLine i (line :: rest)
            = labelCandidates symbolMap targetLine (i + 1) rest := by
          simp [labelCandidates, hm, hf]
        rw [hl, hc]
        exact ih (i + 1) acc (by intro s d hd; have := hinv s d hd; omega)
      | some s =>
        by_cases hle : i + 1 ≤ targetLine
        · have hl : nearestLabelLoop symbolMap targetLine i (line :: rest) acc
              = nearestLabelLoop symbolMap targetLine (i + 1) rest
                  (some (s, targetLine - (i + 1))) := by
            cases hacc : acc with
            | none => simp [nearestLabelLoop, hm, hf, hle]
            | some p =>
              obtain ⟨s0, best⟩ := p
              have hbest : targetLine - i ≤ best := hinv s0 best hacc
              have hlt : targetLine - (i + 1) < best := by omega
              simp [nearestLabelLoop, hm, hf, hle, hlt]
          have hc : labelCandidates symbolMap targetLine i (line :: rest)
              = (s, targetLine - (i + 1))
                  :: labelCandidates symbolMap targetLine (i + 1) rest := by
            simp [labelCandidates, hm, hf, hle]
          rw [hl, hc, lastOpt_cons]
          rw [ih (i + 1) (some (s, targetLine - (i + 1)))
            (by intro s' d' hd'
                injection hd' with h'
                have h2 : targetLine - (i + 1) = d' := congrArg Prod.snd h'
                omega)]
          cases lastOpt (labelCandidates symbolMap targetLine (i + 1) rest) with
          | some c => rfl
          | none => rfl
        · have hl : nearestLabelLoop symbolMap targetLine i (line :: rest) acc
              = nearestLabelLoop symbolMap targetLine (i + 1) rest acc := by
            simp [nearestLabelLoop, hm, hf, hle]
          have hc : labelCandidates symbolMap targetLine i (line :: rest)
              = labelCandidates symbolMap targetLine (i + 1) rest := by
            simp [labelCandidates, hm, hf, hle]
          rw [hl, hc]
          exact ih (i + 1) acc (by intro s d hd; have := hinv s d hd; omega)

/-- C3: with no listing entry for the breakpoint's line, resolution falls
back, in order: (1) the listing miss hands over to the nearest-label
fallback; (2) if the target line's trimmed text begins with `label:` and a
symbol has that label, that (first such) symbol's address is returned;
(3) otherwise the scan keeps the label-defining line nearest at-or-before
the target line — the candidate with the strictly smallest distance, later
equal-distance candidates never overwriting — which is the last candidate in
top-to-bottom order; (4) the spec's example: a breakpoint at line 10 reading
`loop:` with symbol `loop = 0x6010` and no listing match resolves to
`0x6010`. -/
theorem fallback_resolution_chain :
    (∀ (listingLines sourceLines : List String) (symbolMap : List SymbolInfo) (L : Nat),
      findListingAddress L listingLines = none →
      findAddressForSourceLine (some listingLines) sourceLines L symbolMap
        = findAddressUsingNearestLabel sourceLines L symbolMap)
    ∧ (∀ (sourceLines : List String) (symbolMap : List SymbolInfo) (L : Nat)
        (w : String) (s : SymbolInfo),
      1 ≤ L → L ≤ sourceLines.length →
      matchLabelColon (trimChars ((sourceLines.getD (L - 1) "").data)) = some w →
      symbolMap.find? (fun t => t.label = w) = some s →
      findAddressUsingNearestLabel sourceLines L symbolMap = some s.address)
    ∧ (∀ (sourceLines : List String) (symbolMap : List SymbolInfo) (L : Nat),
      1 ≤ L → L ≤ sourceLines.length →
      labelOnLineAddress symbolMap (trimChars ((sourceLines.getD (L - 1) "").data)) = none →
      findAddressUsingNearestLabel sourceLines L symbolMap
        = nearestPrecedingLabelSpec symbolMap L sourceLines)
    ∧ findAddressForSourceLine (some []) demoSource 10 demoSymbols = some 24592 := by
  refine ⟨?_, ?_, ?_, by decide⟩
  · intro listingLines sourceLines symbolMap L h
    show (match findListingAddress L listingLines with
      | some a => some a
      | none => findAddressUsingNearestLabel sourceLines L symbolMap) = _
    rw [h]
  · intro sourceLines symbolMap L w s h1 h2 hw hf
    unfold findAddressUsingNearestLabel
    rw [if_neg (by omega), if_neg (by omega)]
    simp only [labelOnLineAddress, hw, hf]
  · intro sourceLines symbolMap L h1 h2 hnone
    unfold findAddressUsingNearestLabel
    rw [if_neg (by omega), if_neg (by omega)]
    show (match labelOnLineAddress symbolMap (trimChars ((sourceLines.getD (L - 1) "").data)) with
      | some a => some a
      | none =>
        match nearestLabelLoop symbolMap L 0 sourceLines none with
        | some (s, _) => some s.address
        | none => none) = _
    rw [hnone]
    rw [nearestLabelLoop_eq_lastCandidate symbolMap L sourceLines 0 none (by intro s d hd; cases hd)]
    unfold nearestPrecedingLabelSpec
    cases lastOpt (labelCandidates symbolMap L 0 sourceLines) with
    | some c => rfl
    | none => rfl

/-- Witness for C3: each part of the chain instantiated — an empty listing
hands over to the fallback; the demo source's `loop:` line resolves through
strategy 1; a line without a label on it resolves through the
nearest-preceding-label scan; and the example scenario yields `0x6010`. -/
theorem fallback_resolution_chain_witness :
    (findAddressForSourceLine (some ["no entry here"]) demoSource 10 demoSymbols
      = findAddressUsingNearestLabel demoSource 10 demoSymbols)
    ∧ findAddressUsingNearestLabel demoSource 10 demoSymbols = some 24592
    ∧ findAddressUsingNearestLabel demoSource 11 demoSymbols
      = nearestPrecedingLabelSpec demoSymbols 11 demoSource := by
  refine ⟨fallback_resolution_chain.1 _ _ _ _ (by decide),
    fallback_resolution_chain.2.1 demoSource demoSymbols 10 "loop" ⟨24592, "loop", none, some 10⟩
      (by decide) (by decide) (by decide) (by decide),
    fallback_resolution_chain.2.2.1 demoSource demoSymbols 11
      (by decide) (by decide) (by decide)⟩

/-- C4: with zero breakpoints in debug mode, the entry-point lookup returns,
in priority order, the address of the entry-marker line, else the address of
the symbol labeled `main` (case-insensitively), else the address of the
first symbol in file order; with no symbols at all no breakpoint flag is
passed; and with no breakpoints and an entry marker at `0x5000` exactly one
`-b 5000` flag pair is passed. -/
theorem entry_point_priority :
    (∀ (content : String) (a : Nat),
      entryScan (splitLines content) = some a →
      getEntryPoint true content = some a)
    ∧ (∀ (content : String) (s : SymbolInfo),
      entryScan (splitLines content) = none →
      (parseBdsFile true content).find? (fun t => toLowerStr t.label = "main") = some s →
      getEntryPoint true content = some s.address)
    ∧ (∀ content : String,
      entryScan (splitLines content) = none →
      (parseBdsFile true content).find? (fun t => toLowerStr t.label = "main") = none →
      getEntryPoint true content = (parseBdsFile true content).head?.map fun s => s.address)
    ∧ (∀ content : String,
      entryScan (splitLines content) = none →
      parseBdsFile true content = [] →
      prepareBreakpointArgs [] true content = [])
    ∧ prepareBreakpointArgs [] true demoBds = ["-b", "5000"] := by
  refine ⟨?_, ?_, ?_, ?_, by decide⟩
  · intro content a h
    simp [getEntryPoint, h]
  · intro content s h1 h2
    simp [getEntryPoint, h1, h2]
  · intro content h1 h2
    cases hsym : parseBdsFile true content with
    | nil => simp [getEntryPoint, h1, hsym, hsym ▸ h2]
    | cons s0 rest => simp [getEntryPoint, h1, hsym, hsym ▸ h2]
  · intro content h1 h2
    simp [prepareBreakpointArgs, getEntryPoint, h1, h2]

/-- Witness for C4: concrete BDS texts exercising the marker, the `main`
fallback, the first-symbol fallback and the no-symbol case. -/
theorem entry_point_priority_witness :
    getEntryPoint true demoBds = some 20480
    ∧ getEntryPoint true "6010 a loop\n7000 a MAIN" = some 28672
    ∧ getEntryPoint true "6010 a loop\n7000 a other"
      = (parseBdsFile true "6010 a loop\n7000 a other").head?.map (fun s => s.address)
    ∧ prepareBreakpointArgs [] true "; no symbols here" = [] := by
  refine ⟨entry_point_priority.1 demoBds 20480 (by decide),
    entry_point_priority.2.1 "6010 a loop\n7000 a MAIN" ⟨28672, "MAIN", none, some 2⟩
      (by decide) (by decide),
    entry_point_priority.2.2.1 "6010 a loop\n7000 a other" (by decide) (by decide),
    entry_point_priority.2.2.2.1 "; no symbols here" (by decide) (by decide)⟩

/-- C5: when the source is not strictly newer than the `.bds` artifact, the
orchestrator spawns no assembler process and synthesizes a successful result
with an empty diagnostic list; when the source is strictly newer, the
assembler is invoked. -/
theorem staleness_check_skips_assembly :
    (∀ (s b : Int) (files : OutputFiles), s ≤ b →
      performAssemblyModel true (some s) (some b) files
        = .skipped ⟨true, "", "", files, []⟩)
    ∧ (∀ (s b : Int) (files : OutputFiles), b < s →
      performAssemblyModel true (some s) (some b) files = .invoked) := by
  constructor
  · intro s b files h
    simp [performAssemblyModel, needsAssembly, show ¬(s > b) by omega]
  · intro s b files h
    simp [performAssemblyModel, needsAssembly, show s > b by omega]

/-- Witness for C5: equal timestamps skip the spawn with a clean success;
a newer source invokes the assembler. -/
theorem staleness_check_skips_assembly_witness :
    performAssemblyModel true (some 1000) (some 1000) ⟨some "out/m.bds", some "out/m.cmd", none⟩
      = .skipped ⟨true, "", "", ⟨some "out/m.bds", some "out/m.cmd", none⟩, []⟩
    ∧ performAssemblyModel true (some 2000) (some 1000) ⟨none, none, none⟩ = .invoked :=
  ⟨staleness_check_skips_assembly.1 1000 1000 _ (by decide),
   staleness_check_skips_assembly.2 2000 1000 _ (by decide)⟩

/-- C6: for every process that reaches exit, `success` is true exactly when
the exit code is zero, no matter what diagnostic text stderr carried; and a
spawn failure resolves (not throws) with `success = false` and exactly one
synthetic error diagnostic attributed to the requested source file. -/
theorem exit_code_is_authoritative :
    (∀ (sourceFile : String) (files : OutputFiles) (code : Int) (outText errText : String),
      (assembleModel sourceFile files (.closed code outText errText)).success
        = decide (code = 0))
    ∧ (∀ (sourceFile msg : String) (files : OutputFiles),
      (assembleModel sourceFile files (.spawnFailed msg)).success = false
      ∧ (assembleModel sourceFile files (.spawnFailed msg)).errors
        = [⟨sourceFile, 1, none, "Failed to start zmac: " ++ msg, Severity.error⟩]) :=
  ⟨fun _ _ _ _ _ => rfl, fun _ _ _ => ⟨rfl, rfl⟩⟩

/-- C7: `stop()` with no stored instance is an immediate no-op (no signal,
no error); with an instance, SIGTERM is sent, SIGKILL follows only if the
2-second timeout elapses before exit, signal-sending errors are swallowed,
and every path ends with the stored instance cleared. -/
theorem stop_clears_instance :
    (∀ (termSendFails : Bool) (exitAfterMs : Option Nat) (killSendFails : Bool),
      stopEmulatorModel none termSendFails exitAfterMs killSendFails = ⟨[], none, false⟩)
    ∧ (∀ (i : EmulatorInstance) (termSendFails : Bool) (exitAfterMs : Option Nat)
        (killSendFails : Bool),
      (stopEmulatorModel (some i) termSendFails exitAfterMs killSendFails).finalInstance = none
      ∧ (stopEmulatorModel (some i) termSendFails exitAfterMs killSendFails).threw = false)
    ∧ (∀ (i : EmulatorInstance) (t : Nat), t < stopTimeoutMs →
      stopEmulatorModel (some i) false (some t) false = ⟨[.sigterm], none, false⟩)
    ∧ (∀ (i : EmulatorInstance) (t : Nat), stopTimeoutMs ≤ t →
      stopEmulatorModel (some i) false (some t) false = ⟨[.sigterm, .sigkill], none, false⟩)
    ∧ (∀ i : EmulatorInstance,
      stopEmulatorModel (some i) false none false = ⟨[.sigterm, .sigkill], none, false⟩) := by
  refine ⟨fun _ _ _ => rfl, ?_, ?_, ?_, fun _ => rfl⟩
  · intro i termSendFails exitAfterMs killSendFails
    cases termSendFails with
    | true => exact ⟨rfl, rfl⟩
    | false =>
      cases exitAfterMs with
      | none => cases killSendFails <;> exact ⟨rfl, rfl⟩
      | some t =>
        by_cases h : t < stopTimeoutMs
        · simp [stopEmulatorModel, h]
        · cases killSendFails <;> simp [stopEmulatorModel, h]
  · intro i t h
    simp [stopEmulatorModel, h]
  · intro i t h
    simp [stopEmulatorModel, show ¬(t < stopTimeoutMs) by omega]

/-- Witness for C7: a process exiting after 50 ms is only SIGTERMed; one
exiting after 5000 ms is SIGKILLed after the timeout. -/
theorem stop_clears_instance_witness :
    stopEmulatorModel (some ⟨42, "m.a80", true⟩) false (some 50) false
      = ⟨[.sigterm], none, false⟩
    ∧ stopEmulatorModel (some ⟨42, "m.a80", true⟩) false (some 5000) false
      = ⟨[.sigterm, .sigkill], none, false⟩
    ∧ (stopEmulatorModel (some ⟨42, "m.a80", true⟩) true none true).finalInstance = none :=
  ⟨stop_clears_instance.2.2.1 ⟨42, "m.a80", true⟩ 50 (by decide),
   stop_clears_instance.2.2.2.1 ⟨42, "m.a80", true⟩ 5000 (by decide),
   (stop_clears_instance.2.1 ⟨42, "m.a80", true⟩ true none true).1⟩

/-- Counterexample to C8: interleave two `startEmulator` calls so that the
second runs its (no-op) `stopEmulator` and its `spawn` after the first call
has spawned its child but before the first `'spawn'` event handler stores
the instance.  The second call's stop sees no stored instance, so two child
processes are alive at once — the step sequence is a prefix of the first
start's program followed by a prefix of the second's, and it is reachable
because the call suspends between `spawn` and the `'spawn'` event. -/
theorem concurrent_start_spawns_two_children :
    (startProgram 1).take 2 ++ (startProgram 2).take 2
      = [StartAction.callStop, StartAction.spawnChild 1,
         StartAction.callStop, StartAction.spawnChild 2]
    ∧ (runActions idleSup ((startProgram 1).take 2 ++ (startProgram 2).take 2)).children.length
        = 2 := by
  exact ⟨rfl, rfl⟩

/-- C8 (amended): when the two `startEmulator` calls do not overlap — the
second begins from a consistent supervisor state, after the first has
completed — the prior instance is fully stopped before the new child is
spawned: every intermediate state has at most one live child, and afterwards
exactly the second child is alive and recorded.  (A second start issued
during the first start's `Starting` phase can instead produce two concurrent
children, per the counterexample.) -/
theorem serialized_starts_keep_single_instance
    (st : SupState) (p q : Nat) (h : SupConsistent st) :
    (∀ s ∈ statesAlong st (startProgram p ++ startProgram q), s.children.length ≤ 1)
    ∧ runActions st (startProgram p ++ startProgram q) = ⟨some q, [q]⟩ := by
  obtain ⟨cur, ch⟩ := st
  unfold SupConsistent at h
  dsimp at h
  cases cur with
  | none =>
    subst h
    constructor
    · intro s hs
      simp only [startProgram, List.cons_append, List.nil_append, statesAlong, stepStart,
        List.mem_cons, List.not_mem_nil, or_false] at hs
      simp only [List.erase_cons_head] at hs
      rcases hs with h | h | h | h | h | h | h <;> subst h <;> simp
    · simp [startProgram, runActions, stepStart, List.erase_cons_head]
  | some r =>
    subst h
    constructor
    · intro s hs
      simp only [startProgram, List.cons_append, List.nil_append, statesAlong, stepStart,
        List.mem_cons, List.not_mem_nil, or_false] at hs
      simp only [List.erase_cons_head] at hs
      rcases hs with h | h | h | h | h | h | h <;> subst h <;> simp
    · simp [startProgram, runActions, stepStart, List.erase_cons_head]

/-- Witness for the amended C8: a serialized restart from a consistent
running state (instance 3 alive) ends with exactly instance 8 alive, with at
most one child at every step. -/
theorem serialized_starts_keep_single_instance_witness :
    (∀ s ∈ statesAlong ⟨some 3, [3]⟩ (startProgram 7 ++ startProgram 8),
      s.children.length ≤ 1)
    ∧ runActions ⟨some 3, [3]⟩ (startProgram 7 ++ startProgram 8) = ⟨some 8, [8]⟩ :=
  serialized_starts_keep_single_instance ⟨some 3, [3]⟩ 7 8 rfl

theorem hexDigitVal_toHexDigitUpper : ∀ d, d < 16 → hexDigitVal (toHexDigitUpper d) = d := by
  decide

theorem isHexCh_toHexDigitUpper : ∀ d, d < 16 → isHexCh (toHexDigitUpper d) = true := by
  decide

theorem toHexUpperGo_foldl :
    ∀ (n : Nat), ∀ (fuel : Nat) (acc : List Char) (init : Nat), n ≤ fuel →
    ∃ m, 1 ≤ m ∧
      (toHexUpperGo fuel n acc).foldl (fun a c => a * 16 + hexDigitVal c) init
        = acc.foldl (fun a c => a * 16 + hexDigitVal c) (init * 16 ^ m + n) := by
  intro n
  induction n using Nat.strong_induction_on with
  | _ n ih =>
    intro fuel acc init hle
    by_cases h16 : n < 16
    · have hgo : toHexUpperGo fuel n acc = toHexDigitUpper n :: acc := by
        cases fuel with
        | zero => simp [toHexUpperGo, Nat.mod_eq_of_lt h16]
        | succ f => simp [toHexUpperGo, h16]
      refine ⟨1, le_refl 1, ?_⟩
      rw [hgo]
      simp [hexDigitVal_toHexDigitUpper n h16]
    · obtain ⟨f, rfl⟩ : ∃ f, fuel = f + 1 := ⟨fuel - 1, by omega⟩
      have hgo : toHexUpperGo (f + 1) n acc
          = toHexUpperGo f (n / 16) (toHexDigitUpper (n % 16) :: acc) := by
        simp [toHexUpperGo, h16]
      have hdiv : n / 16 < n := Nat.div_lt_self (by omega) (by omega)
      have hdivle : n / 16 ≤ f := by omega
      obtain ⟨m, hm1, hm⟩ := ih (n / 16) hdiv f (toHexDigitUpper (n % 16) :: acc) init hdivle
      refine ⟨m + 1, by omega, ?_⟩
      rw [hgo, hm]
      simp only [List.foldl_cons]
      congr 1
      rw [hexDigitVal_toHexDigitUpper (n % 16) (Nat.mod_lt n (by omega))]
      calc (init * 16 ^ m + n / 16) * 16 + n % 16
          = init * (16 ^ m * 16) + (16 * (n / 16) + n % 16) := by ring
        _ = init * 16 ^ (m + 1) + n := by rw [Nat.div_add_mod, ← pow_succ]

theorem hexVal_toHexUpperList (n : Nat) : hexVal (toHexUpperList n) = n := by
  obtain ⟨m, _, hm⟩ := toHexUpperGo_foldl n n [] 0 (le_refl n)
  unfold hexVal toHexUpperList
  rw [hm]
  simp

theorem toHexUpperGo_all_hex :
    ∀ (n : Nat), ∀ (fuel : Nat) (acc : List Char), n ≤ fuel →
    (∀ c ∈ acc, isHexCh c = true) →
    ∀ c ∈ toHexUpperGo fuel n acc, isHexCh c = true := by
  intro n
  induction n using Nat.strong_induction_on with
  | _ n ih =>
    intro fuel acc hle hacc
    by_cases h16 : n < 16
    · have hgo : toHexUpperGo fuel n acc = toHexDigitUpper n :: acc := by
        cases fuel with
        | zero => simp [toHexUpperGo, Nat.mod_eq_of_lt h16]
        | succ f => simp [toHexUpperGo, h16]
      rw [hgo]
      intro c hc
      rcases List.mem_cons.mp hc with h | h
      · subst h; exact isHexCh_toHexDigitUpper n h16
      · exact hacc c h
    · obtain ⟨f, rfl⟩ : ∃ f, fuel = f + 1 := ⟨fuel - 1, by omega⟩
      have hgo : toHexUpperGo (f + 1) n acc
          = toHexUpperGo f (n / 16) (toHexDigitUpper (n % 16) :: acc) := by
        simp [toHexUpperGo, h16]
      rw [hgo]
      refine ih (n / 16) (Nat.div_lt_self (by omega) (by omega)) f _ (by omega) ?_
      intro c hc
      rcases List.mem_cons.mp hc with h | h
      · subst h; exact isHexCh_toHexDigitUpper (n % 16) (Nat.mod_lt n (by omega))
      · exact hacc c h

theorem toHexUpperGo_ne_nil :
    ∀ (fuel n : Nat) (acc : List Char), toHexUpperGo fuel n acc ≠ [] := by
  intro fuel
  induction fuel with
  | zero => intro n acc; simp [toHexUpperGo]
  | succ f ih =>
    intro n acc
    by_cases h16 : n < 16
    · simp [toHexUpperGo, h16]
    · simp only [toHexUpperGo, h16, if_false]
      exact ih (n / 16) _

theorem takeWhile_eq_self_of_all {p : Char → Bool} :
    ∀ l : List Char, (∀ c ∈ l, p c = true) → l.takeWhile p = l := by
  intro l
  induction l with
  | nil => intro _; rfl
  | cons c rest ih =>
    intro h
    rw [List.takeWhile_cons, h c (List.mem_cons_self c rest)]
    simp [ih fun d hd => h d (List.mem_cons_of_mem c hd)]

theorem not_ws_of_hex (c : Char) (h : isHexCh c = true) : isWs c = false := by
  simp only [isHexCh, isDigitCh, Bool.or_eq_true, Bool.and_eq_true, decide_eq_true_eq] at h
  simp only [isWs, Bool.or_eq_false_iff, decide_eq_false_iff_not]
  omega

theorem ne_of_hex (c : Char) (h : isHexCh c = true) (d : Char)
    (hd : isHexCh d = false) : c ≠ d := by
  intro he
  subst he
  rw [h] at hd
  cases hd

theorem parseIntHex_renderAddress (n : Nat) : parseIntHex (renderAddress n) = some (n : Int) := by
  have hall : ∀ c ∈ toHexUpperList n, isHexCh c = true :=
    toHexUpperGo_all_hex n n [] (le_refl n) (by intro c hc; cases hc)
  obtain ⟨c0, rest, hl⟩ : ∃ c0 rest, toHexUpperList n = c0 :: rest := by
    cases hcase : toHexUpperList n with
    | nil => exact absurd hcase (toHexUpperGo_ne_nil n n [])
    | cons c0 rest => exact ⟨c0, rest, rfl⟩
  have hc0 : isHexCh c0 = true := hall c0 (hl ▸ List.mem_cons_self c0 rest)
  have hdata : (renderAddress n).data = c0 :: rest := by
    show (String.mk (toHexUpperList n)).data = c0 :: rest
    rw [hl]
  have hdrop : (renderAddress n).data.dropWhile isWs = c0 :: rest := by
    rw [hdata, List.dropWhile_cons, not_ws_of_hex c0 hc0]
    simp
  have hsign : stripSign (c0 :: rest) = (false, c0 :: rest) := by
    show (if c0 = '-' then ((true : Bool), rest)
      else if c0 = '+' then ((false : Bool), rest)
      else ((false : Bool), c0 :: rest)) = ((false : Bool), c0 :: rest)
    rw [if_neg (ne_of_hex c0 hc0 '-' (by decide)), if_neg (ne_of_hex c0 hc0 '+' (by decide))]
  have hstrip : strip0x (c0 :: rest) = c0 :: rest := by
    cases rest with
    | nil => rfl
    | cons c1 rest' =>
      have hc1 : isHexCh c1 = true :=
        hall c1 (hl ▸ List.mem_cons_of_mem c0 (List.mem_cons_self c1 rest'))
      show (if c0 = '0' ∧ (c1 = 'x' ∨ c1 = 'X') then rest' else c0 :: c1 :: rest')
        = c0 :: c1 :: rest'
      rw [if_neg]
      rintro ⟨-, h2 | h2⟩
      · exact ne_of_hex c1 hc1 'x' (by decide) h2
      · exact ne_of_hex c1 hc1 'X' (by decide) h2
  have htake : (c0 :: rest).takeWhile isHexCh = c0 :: rest :=
    takeWhile_eq_self_of_all (c0 :: rest) (hl ▸ hall)
  unfold parseIntHex
  simp only [hdrop, hsign, hstrip, htake]
  rw [if_neg (by simp)]
  simp only [Bool.false_eq_true, if_false]
  have : hexVal (c0 :: rest) = n := hl ▸ hexVal_toHexUpperList n
  rw [this]

/-- C9: for every 16-bit address `x` in `[0, 0xFFFF]`, rendering `x` as
uppercase hexadecimal (as done for the emulator's `-b` breakpoint flags) and
parsing the rendered string back with the program's hexadecimal address
parsing (`parseInt(s, 16)`) yields `x` again. -/
theorem parse_render_roundtrip (x : Nat) (_hx : x ≤ 65535) :
    parseAddress (renderAddress x) = some x := by
  unfold parseAddress
  rw [parseIntHex_renderAddress x]
  simp

/-- Witness for C9: the round trip at `0x5000` and at `0xBEEF`. -/
theorem parse_render_roundtrip_witness :
    parseAddress (renderAddress 20480) = some 20480
    ∧ parseAddress (renderAddress 48879) = some 48879 :=
  ⟨parse_render_roundtrip 20480 (by decide), parse_render_roundtrip 48879 (by decide)⟩

theorem ensureMinimal_post (v : TRS80Config) :
    trimStr (ensureMinimalConfiguration v).emulatorPath ≠ ""
    ∧ trimStr (ensureMinimalConfiguration v).zmacPath ≠ ""
    ∧ trimStr (ensureMinimalConfiguration v).outputDir ≠ ""
    ∧ ((ensureMinimalConfiguration v).target = "model1"
        ∨ (ensureMinimalConfiguration v).target = "model3"
        ∨ (ensureMinimalConfiguration v).target = "model4")
    ∧ (ensureMinimalConfiguration v).emulatorArgs ≠ []
    ∧ ((ensureMinimalConfiguration v).autoAssemble).isSome = true := by
  obtain ⟨ep, zp, od, ea, tg, aa, pcf⟩ := v
  unfold ensureMinimalConfiguration
  dsimp only
  refine ⟨?_, ?_, ?_, ?_, ?_, ?_⟩
  · by_cases h : (ep = "" || trimStr ep = "") = true
    · rw [if_pos h]; decide
    · rw [if_neg h]
      simp only [Bool.or_eq_true, decide_eq_true_eq, not_or] at h
      exact h.2
  · by_cases h : (zp = "" || trimStr zp = "") = true
    · rw [if_pos h]; decide
    · rw [if_neg h]
      simp only [Bool.or_eq_true, decide_eq_true_eq, not_or] at h
      exact h.2
  · by_cases h : (od = "" || trimStr od = "") = true
    · rw [if_pos h]; decide
    · rw [if_neg h]
      simp only [Bool.or_eq_true, decide_eq_true_eq, not_or] at h
      exact h.2
  · by_cases h : (tg = "" || !(tg = "model1" || tg = "model3" || tg = "model4")) = true
    · rw [if_pos h]; right; left; rfl
    · rw [if_neg h]
      by_contra hc
      push_neg at hc
      exact h (by simp [hc.1, hc.2.1, hc.2.2])
  · by_cases h : ea.isEmpty = true
    · rw [if_pos h]; simp
    · rw [if_neg h]
      simpa [List.isEmpty_iff] using h
  · cases aa <;> rfl

/-- C10: every configuration object `getConfiguration` returns has non-blank
`emulatorPath`, `zmacPath` and `outputDir`, a target among
`model1`/`model3`/`model4`, a well-typed non-empty emulator-argument list
whose all-defaults value is the documented `['-m3']`, and a defined
`autoAssemble` — for every combination of missing/empty settings values and
missing, empty or unparseable project configuration. -/
theorem configuration_minimal_invariants :
    (∀ (settings : VsSettings) (project : Option ProjectConfig),
      trimStr (getConfiguration settings project).emulatorPath ≠ ""
      ∧ trimStr (getConfiguration settings project).zmacPath ≠ ""
      ∧ trimStr (getConfiguration settings project).outputDir ≠ ""
      ∧ ((getConfiguration settings project).target = "model1"
          ∨ (getConfiguration settings project).target = "model3"
          ∨ (getConfiguration settings project).target = "model4")
      ∧ (getConfiguration settings project).emulatorArgs ≠ []
      ∧ ((getConfiguration settings project).autoAssemble).isSome = true)
    ∧ (∀ (settings : VsSettings) (project : Option ProjectConfig),
      settings.defaultEmulatorArgs = none →
      project.bind ProjectConfig.emulatorArgs = none →
      (getConfiguration settings project).emulatorArgs = ["-m3"]) := by
  constructor
  · intro settings project
    exact ensureMinimal_post (mergedConfiguration settings project)
  · intro settings project h1 h2
    have hm : (mergedConfiguration settings project).emulatorArgs = ["-m3"] := by
      unfold mergedConfiguration
      cases project with
      | none => simp [h1]
      | some pc =>
        have hpc : pc.emulatorArgs = none := by simpa using h2
        simp only [h1, hpc]
        cases pc.outputDir <;> cases pc.target <;> simp
    show (ensureMinimalConfiguration (mergedConfiguration settings project)).emulatorArgs = _
    unfold ensureMinimalConfiguration
    simp [hm]

/-- Witness for C10: with every setting undefined and no project file, the
returned configuration carries the documented defaults and satisfies every
invariant. -/
theorem configuration_minimal_invariants_witness :
    (trimStr (getConfiguration ⟨none, none, none, none, none, none⟩ none).emulatorPath ≠ ""
      ∧ trimStr (getConfiguration ⟨none, none, none, none, none, none⟩ none).zmacPath ≠ ""
      ∧ trimStr (getConfiguration ⟨none, none, none, none, none, none⟩ none).outputDir ≠ ""
      ∧ ((getConfiguration ⟨none, none, none, none, none, none⟩ none).target = "model1"
          ∨ (getConfiguration ⟨none, none, none, none, none, none⟩ none).target = "model3"
          ∨ (getConfiguration ⟨none, none, none, none, none, none⟩ none).target = "model4")
      ∧ (getConfiguration ⟨none, none, none, none, none, none⟩ none).emulatorArgs ≠ []
      ∧ ((getConfiguration ⟨none, none, none, none, none, none⟩ none).autoAssemble).isSome = true)
    ∧ (getConfiguration ⟨none, none, none, none, none, none⟩ none).emulatorArgs = ["-m3"] :=
  ⟨configuration_minimal_invariants.1 ⟨none, none, none, none, none, none⟩ none,
   configuration_minimal_invariants.2 ⟨none, none, none, none, none, none⟩ none rfl rfl⟩

end Trs80
